import Mathlib

/-!
Verification of the sherlock group-vault subsystem: the Group/Account data
model and its CRUD operations (group.go), the StateOption mutation protocol,
query resolver and vault orchestrator (sherlock.go). The external file store
and the vault codec (security package) are collaborators outside the core and
are modelled at their interface boundary.
-/

namespace Sherlock

/-- Error values of the `internal` package (`ErrNotSetup`, `ErrNoSuchGroup`,
`ErrWrongKey`, `ErrInvalidQuery` in sherlock.go; `ErrAccountExists`,
`ErrNoSuchAccount` in group.go). Go errors are distinct comparable values;
`other` stands for errors produced by external collaborators (file store,
codec, json marshalling), which the core only propagates. -/
inductive Err where
  | NotSetup
  | NoSuchGroup
  | WrongKey
  | InvalidQuery
  | AccountExists
  | NoSuchAccount
  | other (msg : String)
  deriving DecidableEq, Repr

/-- Account record. Modelled from the spec: account.go is not among the
sources; §3 of the spec gives the fields name, tag, secret, created_on
(timestamp, modelled as Nat). The fields `Name`, `Tag`, `CreatedOn` are also
used directly by group.go. -/
structure Account where
  Name : String
  Tag : String
  Secret : String
  CreatedOn : Nat
  deriving DecidableEq, Repr

/-- Group from group.go: a `GID` and an ordered slice of Accounts. Go stores
`[]*Account`; the embedding stores the account values in the same order. -/
structure Group where
  GID : String
  Accounts : List Account
  deriving DecidableEq, Repr

/-- `Group.exists` from group.go: some existing account matches both `Name`
and `Tag` of the candidate (the (name, tag) pair is the pk of an Account). -/
def Group.exists (g : Group) (account : Account) : Bool :=
  g.Accounts.any fun a => account.Name == a.Name && account.Tag == a.Tag

/-- `Group.append` from group.go: appends the account to the group unless
`exists` reports a (name, tag) collision, in which case `ErrAccountExists`. -/
def Group.append (g : Group) (account : Account) : Except Err Group :=
  if g.exists account then .error .AccountExists
  else .ok { g with Accounts := g.Accounts ++ [account] }

/-- Loop body of `Group.lookup` from group.go: first account whose `Name`
matches wins; `ErrNoSuchAccount` when the loop falls through. -/
def lookupList : List Account → String → Except Err Account
  | [], _ => .error .NoSuchAccount
  | a :: rest, n => if a.Name = n then .ok a else lookupList rest n

/-- `Group.lookup` from group.go. -/
def Group.lookup (g : Group) (accountName : String) : Except Err Account :=
  lookupList g.Accounts accountName

/-- `Group.delete` from group.go. The loop stores `offset = &i`, a pointer to
the single loop variable of the range clause (the module predates the go 1.22
per-iteration loop variables; its go directive uses the shared-variable
semantics), so after the full pass the pointee holds the index of the final
iteration, `length - 1`, and `offset` is non-nil exactly when some account
matched the name. The slice surgery `append(a[:*offset], a[*offset+1:]...)`
therefore always removes the last element. -/
def Group.delete (g : Group) (account : String) : Except Err Group :=
  if g.Accounts.any (fun a => a.Name == account) then
    let offset := g.Accounts.length - 1
    .ok { g with Accounts := g.Accounts.take offset ++ g.Accounts.drop (offset + 1) }
  else
    .error .NoSuchAccount

/-- The existence test `g.exists(name)` inside `OptAccName` (sherlock.go):
the call passes the new account name, a string, so the test an account can
satisfy with that datum is a match on `Name`. -/
def Group.existsName (g : Group) (name : String) : Bool :=
  g.Accounts.any fun a => a.Name == name

/-- Modelled from the spec: `updateFieldName` of the missing account.go —
§4.1, `update` applies the set-name field mutation in place with no error
conditions at this level. -/
def Account.updateFieldName (a : Account) (name : String) : Account :=
  { a with Name := name }

/-- Modelled from the spec: `updateFieldTag` of the missing account.go —
§4.1, `update` applies the set-tag field mutation in place with no error
conditions at this level. -/
def Account.updateFieldTag (a : Account) (tag : String) : Account :=
  { a with Tag := tag }

/-- In-place update through the pointer returned by `Group.lookup`: Go's
`lookup` hands back `*Account` aliasing the slice cell of the first account
whose name matches, and `account.update(...)` rewrites that cell. Purely:
rewrite the first matching account, `none` when `lookup` finds no match. -/
def updateFirstList (f : Account → Account) : List Account → String → Option (List Account)
  | [], _ => none
  | a :: rest, n =>
    if a.Name = n then some (f a :: rest)
    else (updateFirstList f rest n).map (a :: ·)

/-- StateOption from sherlock.go. Go mutates the group through pointers; the
pure embedding returns the updated group on success, and on `.error` the
caller keeps its old group (a failed mutation's copy is discarded). -/
abbrev StateOption := Group → String → Except Err Group

/-- `OptAddAccount` from sherlock.go: delegates to `Group.append`; the target
account name from the query is ignored. -/
def OptAddAccount (account : Account) : StateOption := fun g _acc =>
  g.append account

/-- `OptAccName` from sherlock.go: `ErrAccountExists` when the new name
passes the group's existence test, otherwise look up the target by the query
account name and rewrite its name field. -/
def OptAccName (name : String) : StateOption := fun g acc =>
  if g.existsName name then .error .AccountExists
  else
    match updateFirstList (fun a => a.updateFieldName name) g.Accounts acc with
    | none => .error .NoSuchAccount
    | some accounts => .ok { g with Accounts := accounts }

/-- `OptsAccTag` from sherlock.go: look up the target by the query account
name and rewrite its tag field; no uniqueness check of any kind. -/
def OptsAccTag (tag : String) : StateOption := fun g acc =>
  match updateFirstList (fun a => a.updateFieldTag tag) g.Accounts acc with
  | none => .error .NoSuchAccount
  | some accounts => .ok { g with Accounts := accounts }

/-- `OptAccDelete` from sherlock.go: delegates to `Group.delete`. -/
def OptAccDelete : StateOption := fun g acc =>
  g.delete acc

/-- Model of Go `strings.Split(s, "@")` for the single-character separator
`querySplitPoint`: the list of maximal `'@'`-free segments of `s`, one more
segment than there are occurrences of `'@'` (like Go, `Split` of the empty
string yields one empty segment). -/
def goSplitAt : List Char → List (List Char)
  | [] => [[]]
  | c :: rest =>
    if c = '@' then [] :: goSplitAt rest
    else
      match goSplitAt rest with
      | [] => [[c]]
      | p :: ps => (c :: p) :: ps

/-- `SplitQuery` from sherlock.go: `strings.Split` on `"@"` must yield exactly
two parts, else `ErrInvalidQuery`. -/
def SplitQuery (query : String) : Except Err (String × String) :=
  match goSplitAt query.data with
  | [a, b] => .ok (⟨a⟩, ⟨b⟩)
  | _ => .error .InvalidQuery

/-- Bytes of a persisted vault blob. -/
abbrev Bytes := List Nat

/-- Modelled from the spec: the FileSystem implementation behind the
interface of sherlock.go is outside the sources (§6). `GroupExists` and
`VaultExists` keep the source's inverted polarity (a `some` error signals
existence, `none` absence); `blobs` is the persisted vault-blob store, read
fails if absent, `Write` overwrites in place. -/
structure FS where
  GroupExists : String → Option Err
  VaultExists : String → Option Err
  blobs : String → Option Bytes

/-- Modelled from the spec: `read_group_vault(gid) -> bytes` — fails if
absent (§6). -/
def FS.ReadGroupVault (fs : FS) (gid : String) : Except Err Bytes :=
  match fs.blobs gid with
  | some b => .ok b
  | none => .error (.other "read_group_vault: no vault for group")

/-- Modelled from the spec: `write(gid, bytes)` — overwrite-in-place,
last-writer-wins (§6). -/
def FS.Write (fs : FS) (gid : String) (data : Bytes) : FS :=
  { fs with blobs := fun g => if g = gid then some data else fs.blobs g }

/-- Modelled from the spec: the security package (vault codec) and
`json.Marshal` are external collaborators specified only at their interface
(§6); arbitrary functions with arbitrary failure behavior. -/
structure External where
  DecryptVault : Bytes → String → Except Err Group
  EncryptVault : Bytes → String → Except Err Bytes
  Marshal : Group → Except Err Bytes

/-- `Sherlock.IsSetUp` from sherlock.go: a nil error from the existence
checks means the default group (resp. its vault) does not exist, and either
way `ErrNotSetup` is returned. -/
def IsSetUp (fs : FS) : Except Err Unit :=
  match fs.GroupExists "default" with
  | none => .error .NotSetup
  | some _ =>
    match fs.VaultExists "default" with
    | none => .error .NotSetup
    | some _ => .ok ()

/-- `Sherlock.LoadGroup` from sherlock.go: read the group vault, then
decrypt; any decryption error is replaced by `ErrWrongKey`. -/
def LoadGroup (ext : External) (fs : FS) (gid groupKey : String) : Except Err Group :=
  match fs.ReadGroupVault gid with
  | .error e => .error e
  | .ok bytes =>
    match ext.DecryptVault bytes groupKey with
    | .error _ => .error .WrongKey
    | .ok group => .ok group

/-- `Sherlock.WriteGroup` from sherlock.go: serialize (json.Marshal via
`Group.serizalize`), encrypt, write; the store is returned unchanged when
serialization or encryption fails. -/
def WriteGroup (ext : External) (fs : FS) (gid groupKey : String) (group : Group) :
    Except Err Unit × FS :=
  match ext.Marshal group with
  | .error e => (.error e, fs)
  | .ok serialized =>
    match ext.EncryptVault serialized groupKey with
    | .error e => (.error e, fs)
    | .ok encrypted => (.ok (), fs.Write gid encrypted)

/-- `Sherlock.UpdateState` from sherlock.go: split the query, load and
decrypt the group, apply the StateOption, and only on its success
re-serialize, re-encrypt and persist via `WriteGroup`. The returned `FS` is
the store after the call. -/
def UpdateState (ext : External) (fs : FS) (query groupKey : String) (opt : StateOption) :
    Except Err Unit × FS :=
  match SplitQuery query with
  | .error e => (.error e, fs)
  | .ok (gid, name) =>
    match LoadGroup ext fs gid groupKey with
    | .error e => (.error e, fs)
    | .ok group =>
      match opt group name with
      | .error e => (.error e, fs)
      | .ok group2 => WriteGroup ext fs gid groupKey group2

/-- `Sherlock.CheckGroupKey` from sherlock.go: split the query, read the
vault, attempt decryption; a decryption error of any cause becomes
`ErrWrongKey`, and the decrypted content is discarded. -/
def CheckGroupKey (ext : External) (fs : FS) (query groupKey : String) : Except Err Unit :=
  match SplitQuery query with
  | .error e => .error e
  | .ok (gid, _) =>
    match fs.ReadGroupVault gid with
    | .error e => .error e
    | .ok bytes =>
      match ext.DecryptVault bytes groupKey with
      | .error _ => .error .WrongKey
      | .ok _ => .ok ()

/-- `Sherlock.GetAccount` from sherlock.go: split the query, load and
decrypt the group, look the account up by name. -/
def GetAccount (ext : External) (fs : FS) (query groupKey : String) : Except Err Account :=
  match SplitQuery query with
  | .error e => .error e
  | .ok (gid, name) =>
    match LoadGroup ext fs gid groupKey with
    | .error e => .error e
    | .ok group => group.lookup name

/-! Lemmas about the query resolver. -/

theorem goSplitAt_ne_nil (cs : List Char) : goSplitAt cs ≠ [] := by
  induction cs with
  | nil => simp [goSplitAt]
  | cons c rest ih =>
    by_cases hc : c = '@'
    · simp [goSplitAt, hc]
    · simp only [goSplitAt, hc, if_false]
      rcases h : goSplitAt rest with _ | ⟨p, ps⟩ <;> simp

theorem goSplitAt_length (cs : List Char) :
    (goSplitAt cs).length = cs.count '@' + 1 := by
  induction cs with
  | nil => simp [goSplitAt]
  | cons c rest ih =>
    by_cases hc : c = '@'
    · subst hc
      simp [goSplitAt, List.count_cons, ih]
    · rcases h : goSplitAt rest with _ | ⟨p, ps⟩
      · exact absurd h (goSplitAt_ne_nil rest)
      · rw [h] at ih
        have hbc : (c == '@') = false := by simpa using hc
        simp only [goSplitAt, hc, if_false, h, List.count_cons, hbc]
        simp only [List.length_cons] at ih ⊢
        simp only [Bool.false_eq_true, if_false]
        omega

theorem goSplitAt_of_count_zero (cs : List Char) (h : cs.count '@' = 0) :
    goSplitAt cs = [cs] := by
  induction cs with
  | nil => simp [goSplitAt]
  | cons c rest ih =>
    simp only [List.count_cons] at h
    by_cases hc : c = '@'
    · subst hc; simp at h
    · have hrest : rest.count '@' = 0 := Nat.eq_zero_of_add_eq_zero_right h
      simp only [goSplitAt, hc, if_false, ih hrest]

theorem goSplitAt_single (cs p : List Char) (h : goSplitAt cs = [p]) :
    cs = p ∧ cs.count '@' = 0 := by
  induction cs generalizing p with
  | nil =>
    simp [goSplitAt] at h
    subst h
    simp
  | cons c rest ih =>
    by_cases hc : c = '@'
    · subst hc
      simp only [goSplitAt, if_pos rfl] at h
      have := goSplitAt_ne_nil rest
      simp at h
      exact absurd h.2 this
    · simp only [goSplitAt, hc, if_false] at h
      rcases hr : goSplitAt rest with _ | ⟨q, qs⟩
      · exact absurd hr (goSplitAt_ne_nil rest)
      · rw [hr] at h
        injection h with h1 h2
        have hrest := ih q (by rw [hr, h2])
        have hbc : (c == '@') = false := by simpa using hc
        subst h1
        refine ⟨by rw [hrest.1], ?_⟩
        simp [List.count_cons, hbc, hrest.2]

theorem goSplitAt_append (a b : List Char) (ha : a.count '@' = 0) :
    goSplitAt (a ++ '@' :: b) = a :: goSplitAt b := by
  induction a with
  | nil => simp [goSplitAt]
  | cons c a2 ih =>
    simp only [List.count_cons] at ha
    by_cases hc : c = '@'
    · subst hc; simp at ha
    · have ha2 : a2.count '@' = 0 := Nat.eq_zero_of_add_eq_zero_right ha
      simp only [List.cons_append, goSplitAt, hc, if_false, List.append_eq]
      rw [ih ha2]

theorem goSplitAt_pair (cs a b : List Char) (h : goSplitAt cs = [a, b]) :
    cs = a ++ '@' :: b ∧ a.count '@' = 0 ∧ b.count '@' = 0 := by
  induction cs generalizing a with
  | nil => simp [goSplitAt] at h
  | cons c rest ih =>
    by_cases hc : c = '@'
    · subst hc
      simp only [goSplitAt, if_pos rfl] at h
      injection h with h1 h2
      have hs := goSplitAt_single rest b (by rw [h2])
      refine ⟨?_, ?_, hs.1 ▸ hs.2⟩
      · rw [← h1, hs.1]; rfl
      · rw [← h1]; simp
    · simp only [goSplitAt, hc, if_false] at h
      rcases hr : goSplitAt rest with _ | ⟨q, qs⟩
      · exact absurd hr (goSplitAt_ne_nil rest)
      · rw [hr] at h
        injection h with h1 h2
        have hrest := ih q (by rw [hr, h2])
        have hbc : (c == '@') = false := by simpa using hc
        subst h1
        refine ⟨?_, ?_, hrest.2.2⟩
        · rw [hrest.1]; rfl
        · simp [List.count_cons, hbc, hrest.2.1]

theorem SplitQuery_ok_iff (q a b : String) :
    SplitQuery q = .ok (a, b) ↔
      (q.data = a.data ++ '@' :: b.data ∧
        a.data.count '@' = 0 ∧ b.data.count '@' = 0) := by
  constructor
  · intro h
    unfold SplitQuery at h
    rcases hg : goSplitAt q.data with _ | ⟨x, _ | ⟨y, _ | ⟨z, zs⟩⟩⟩ <;> rw [hg] at h
    · simp at h
    · simp at h
    · simp only [Except.ok.injEq, Prod.mk.injEq] at h
      rcases h with ⟨ha, hb⟩
      rw [← ha, ← hb]
      exact goSplitAt_pair q.data x y hg
    · simp at h
  · rintro ⟨hdec, hca, hcb⟩
    have hg : goSplitAt q.data = [a.data, b.data] := by
      rw [hdec, goSplitAt_append _ _ hca, goSplitAt_of_count_zero _ hcb]
    unfold SplitQuery
    rw [hg]

/-- C7: for every query string q, `SplitQuery q` succeeds — returning the
pair of substrings before and after the separator — exactly when q contains
exactly one `'@'` (empty halves accepted), and fails with `ErrInvalidQuery`
when q contains zero or more than one `'@'`; in particular
`split("detective@bakerstreet") = ("detective", "bakerstreet")` while
`split("detective")` and `split("a@b@c")` both fail with `ErrInvalidQuery`. -/
theorem SplitQuery_exactly_one_separator (q : String) :
    (∀ a b : String, SplitQuery q = .ok (a, b) ↔
        (q.data = a.data ++ '@' :: b.data ∧
          a.data.count '@' = 0 ∧ b.data.count '@' = 0))
  ∧ ((∃ p, SplitQuery q = .ok p) ↔ q.data.count '@' = 1)
  ∧ (SplitQuery q = .error .InvalidQuery ↔ q.data.count '@' ≠ 1)
  ∧ SplitQuery "detective@bakerstreet" = .ok ("detective", "bakerstreet")
  ∧ SplitQuery "detective" = .error .InvalidQuery
  ∧ SplitQuery "a@b@c" = .error .InvalidQuery := by
  have hex : (∃ p, SplitQuery q = .ok p) ↔ q.data.count '@' = 1 := by
    constructor
    · rintro ⟨⟨a, b⟩, h⟩
      rcases (SplitQuery_ok_iff q a b).mp h with ⟨hdec, hca, hcb⟩
      rw [hdec]
      simp [List.count_append, List.count_cons, hca, hcb]
    · intro hc
      have hl := goSplitAt_length q.data
      rw [hc] at hl
      rcases hg : goSplitAt q.data with _ | ⟨x, _ | ⟨y, _ | ⟨z, zs⟩⟩⟩ <;>
        rw [hg] at hl <;> simp at hl
      exact ⟨(⟨x⟩, ⟨y⟩), by unfold SplitQuery; rw [hg]⟩
  refine ⟨SplitQuery_ok_iff q, hex, ?_, rfl, rfl, rfl⟩
  constructor
  · intro h hc
    rcases hex.mpr hc with ⟨p, hp⟩
    rw [h] at hp
    exact absurd hp (by simp)
  · intro hc
    have hl := goSplitAt_length q.data
    rcases hg : goSplitAt q.data with _ | ⟨x, _ | ⟨y, _ | ⟨z, zs⟩⟩⟩ <;>
      rw [hg] at hl <;> unfold SplitQuery <;> rw [hg]
    exact absurd (by simp at hl; omega : q.data.count '@' = 1) hc

/-- Witness for C7 at a concrete input. -/
theorem SplitQuery_exactly_one_separator_witness :
    SplitQuery "detective@bakerstreet" = .ok ("detective", "bakerstreet") :=
  (SplitQuery_exactly_one_separator "q").2.2.2.1

/-! Lemmas about the Group operations. -/

theorem exists_eq_true_iff (g : Group) (account : Account) :
    g.exists account = true ↔
      ∃ b ∈ g.Accounts, b.Name = account.Name ∧ b.Tag = account.Tag := by
  unfold Group.exists
  simp only [List.any_eq_true, Bool.and_eq_true, beq_iff_eq]
  constructor
  · rintro ⟨b, hb, h1, h2⟩
    exact ⟨b, hb, h1.symm, h2.symm⟩
  · rintro ⟨b, hb, h1, h2⟩
    exact ⟨b, hb, h1.symm, h2.symm⟩

/-- C2: `Group.append` inserts the account at the end of the account
sequence iff no existing account shares both its name and its tag; on a
(name, tag) collision it fails with `ErrAccountExists`, and in this pure
embedding a failing append returns no group at all — the caller keeps its
unchanged one. -/
theorem append_iff_no_name_tag_collision (g : Group) (account : Account) :
    ((¬ ∃ b ∈ g.Accounts, b.Name = account.Name ∧ b.Tag = account.Tag) →
        g.append account = .ok { g with Accounts := g.Accounts ++ [account] })
  ∧ ((∃ b ∈ g.Accounts, b.Name = account.Name ∧ b.Tag = account.Tag) →
        g.append account = .error .AccountExists) := by
  constructor
  · intro h
    have hb : g.exists account = false := by
      cases hx : g.exists account
      · rfl
      · exact absurd ((exists_eq_true_iff g account).mp hx) h
    simp [Group.append, hb]
  · intro h
    have hb : g.exists account = true := (exists_eq_true_iff g account).mpr h
    simp [Group.append, hb]

/-- Witness for C2 at a concrete input: appending to the empty group. -/
theorem append_iff_no_name_tag_collision_witness :
    Group.append ⟨"g", []⟩ ⟨"a", "t", "s", 0⟩ = .ok ⟨"g", [⟨"a", "t", "s", 0⟩]⟩ :=
  (append_iff_no_name_tag_collision ⟨"g", []⟩ ⟨"a", "t", "s", 0⟩).1 (by simp)

theorem lookupList_ok_iff (l : List Account) (n : String) (a : Account) :
    lookupList l n = .ok a ↔
      ∃ l₁ l₂, l = l₁ ++ a :: l₂ ∧ a.Name = n ∧ ∀ b ∈ l₁, b.Name ≠ n := by
  induction l with
  | nil =>
    simp only [lookupList]
    constructor
    · intro h; exact absurd h (by simp)
    · rintro ⟨l₁, l₂, h, -, -⟩
      exact absurd h (by simp)
  | cons c rest ih =>
    by_cases hc : c.Name = n
    · simp only [lookupList, if_pos hc]
      constructor
      · intro h
        have hca : c = a := by simpa using h
        subst hca
        exact ⟨[], rest, rfl, hc, by simp⟩
      · rintro ⟨l₁, l₂, hdec, han, hl₁⟩
        rcases l₁ with _ | ⟨d, l₁2⟩
        · simp at hdec
          rw [hdec.1]
        · simp at hdec
          exact absurd (by rw [← hdec.1]; exact hc) (hl₁ d (by simp))
    · simp only [lookupList, if_neg hc]
      rw [ih]
      constructor
      · rintro ⟨l₁, l₂, hdec, han, hl₁⟩
        refine ⟨c :: l₁, l₂, by rw [hdec]; rfl, han, ?_⟩
        intro b hb
        rcases List.mem_cons.mp hb with hbc | hb2
        · rw [hbc]; exact hc
        · exact hl₁ b hb2
      · rintro ⟨l₁, l₂, hdec, han, hl₁⟩
        rcases l₁ with _ | ⟨d, l₁2⟩
        · simp at hdec
          exact absurd (by rw [hdec.1]; exact han) hc
        · simp at hdec
          exact ⟨l₁2, l₂, hdec.2, han, fun b hb => hl₁ b (by simp [hb])⟩

theorem lookupList_error_iff (l : List Account) (n : String) :
    lookupList l n = .error .NoSuchAccount ↔ ∀ b ∈ l, b.Name ≠ n := by
  induction l with
  | nil => simp [lookupList]
  | cons c rest ih =>
    by_cases hc : c.Name = n
    · simp [lookupList, hc]
    · simp [lookupList, hc, ih]

/-- C9: `Group.lookup` returns the first account in the group's sequence
whose name equals the requested name — the tag plays no part — and fails
with `ErrNoSuchAccount` exactly when no account has that name. -/
theorem lookup_first_match_by_name (g : Group) (n : String) :
    (∀ a, g.lookup n = .ok a ↔
        ∃ l₁ l₂, g.Accounts = l₁ ++ a :: l₂ ∧ a.Name = n ∧ ∀ b ∈ l₁, b.Name ≠ n)
  ∧ (g.lookup n = .error .NoSuchAccount ↔ ∀ b ∈ g.Accounts, b.Name ≠ n) :=
  ⟨fun a => lookupList_ok_iff g.Accounts n a, lookupList_error_iff g.Accounts n⟩

/-- Witness for C9 at a concrete input: the first of two accounts named "a"
is returned, the tag being no part of the lookup key. -/
theorem lookup_first_match_by_name_witness :
    Group.lookup ⟨"g", [⟨"a", "t1", "s1", 0⟩, ⟨"a", "t2", "s2", 0⟩]⟩ "a"
      = .ok ⟨"a", "t1", "s1", 0⟩ :=
  ((lookup_first_match_by_name ⟨"g", [⟨"a", "t1", "s1", 0⟩, ⟨"a", "t2", "s2", 0⟩]⟩ "a").1
    ⟨"a", "t1", "s1", 0⟩).mpr ⟨[], [⟨"a", "t2", "s2", 0⟩], rfl, rfl, by simp⟩

/-- C3: evaluation of `Group.delete` at the failing input. The group holds
the account "x" followed by "y"; `delete "x"` removes "y" — the last
element of the slice — and keeps "x", contradicting the claim (and the
function's own doc comment), which asks for the first account named "x" to
be removed and the order-preserved remainder ["y"] to stay. -/
theorem delete_removes_last_element_bug :
    Group.delete ⟨"g", [⟨"x", "", "sx", 0⟩, ⟨"y", "", "sy", 0⟩]⟩ "x"
        = .ok ⟨"g", [⟨"x", "", "sx", 0⟩]⟩
  ∧ (∃ b ∈ (Group.mk "g" [⟨"x", "", "sx", 0⟩]).Accounts, b.Name = "x")
  ∧ (∀ b ∈ (Group.mk "g" [⟨"x", "", "sx", 0⟩]).Accounts, b.Name ≠ "y") :=
  ⟨rfl, by decide, by decide⟩

/-- C8: `OptsAccTag` performs no (name, tag) uniqueness check: it can never
fail with `ErrAccountExists`; and on the group
[{a, t1, s1}, {a, t2, s2}] — which satisfies the no-duplicate-(name, tag)
invariant — a successful SetTag of target "a" to "t2" yields a group whose
two (distinct) accounts carry the identical (name, tag) pair ("a", "t2"). -/
theorem OptsAccTag_no_uniqueness_check :
    (∀ (tag : String) (g : Group) (acc : String),
        OptsAccTag tag g acc ≠ .error .AccountExists)
  ∧ List.Pairwise (fun x y => ¬(x.Name = y.Name ∧ x.Tag = y.Tag))
      ([⟨"a", "t1", "s1", 0⟩, ⟨"a", "t2", "s2", 0⟩] : List Account)
  ∧ OptsAccTag "t2" ⟨"g", [⟨"a", "t1", "s1", 0⟩, ⟨"a", "t2", "s2", 0⟩]⟩ "a"
      = .ok ⟨"g", [⟨"a", "t2", "s1", 0⟩, ⟨"a", "t2", "s2", 0⟩]⟩
  ∧ (⟨"a", "t2", "s1", 0⟩ : Account) ≠ ⟨"a", "t2", "s2", 0⟩
  ∧ Account.Name ⟨"a", "t2", "s1", 0⟩ = Account.Name ⟨"a", "t2", "s2", 0⟩
  ∧ Account.Tag ⟨"a", "t2", "s1", 0⟩ = Account.Tag ⟨"a", "t2", "s2", 0⟩ := by
  refine ⟨?_, by decide, rfl, by decide, rfl, rfl⟩
  intro tag g acc h
  unfold OptsAccTag at h
  rcases hu : updateFirstList (fun a => a.updateFieldTag tag) g.Accounts acc with _ | l <;>
    rw [hu] at h <;> simp at h

/-- Witness for C8 at a concrete input. -/
theorem OptsAccTag_no_uniqueness_check_witness :
    OptsAccTag "t" ⟨"g", []⟩ "a" ≠ .error .AccountExists :=
  OptsAccTag_no_uniqueness_check.1 "t" ⟨"g", []⟩ "a"

theorem updateFirstList_none_iff (f : Account → Account) (l : List Account) (n : String) :
    updateFirstList f l n = none ↔ ∀ b ∈ l, b.Name ≠ n := by
  induction l with
  | nil => simp [updateFirstList]
  | cons c rest ih =>
    by_cases hc : c.Name = n
    · simp [updateFirstList, hc]
    · simp [updateFirstList, hc, ih]

theorem updateFirstList_decomp (f : Account → Account) (l₁ : List Account) (a : Account)
    (l₂ : List Account) (n : String) (ha : a.Name = n) (hl₁ : ∀ b ∈ l₁, b.Name ≠ n) :
    updateFirstList f (l₁ ++ a :: l₂) n = some (l₁ ++ f a :: l₂) := by
  induction l₁ with
  | nil => simp [updateFirstList, ha]
  | cons c rest ih =>
    have hc : c.Name ≠ n := hl₁ c (by simp)
    simp only [List.cons_append, updateFirstList, if_neg hc, List.append_eq]
    rw [ih (fun b hb => hl₁ b (by simp [hb]))]
    rfl

theorem existsName_eq_true_iff (g : Group) (name : String) :
    g.existsName name = true ↔ ∃ b ∈ g.Accounts, b.Name = name := by
  unfold Group.existsName
  simp [List.any_eq_true]

theorem existsName_eq_false (g : Group) (name : String)
    (h : ¬ ∃ b ∈ g.Accounts, b.Name = name) : g.existsName name = false := by
  cases hx : g.existsName name
  · rfl
  · exact absurd ((existsName_eq_true_iff g name).mp hx) h

/-- C5 counterexample: in the one-account group [{a, t, s}] the target of
the rename is looked up under the name "a", and the new name "a" names no
account other than that target — by the claim, the rename must go through —
yet `OptAccName` fails with `ErrAccountExists`, because the existence check
counts the target itself. -/
theorem OptAccName_rejects_self_rename :
    Group.lookup ⟨"g", [⟨"a", "t", "s", 0⟩]⟩ "a" = .ok ⟨"a", "t", "s", 0⟩
  ∧ (∀ b ∈ (Group.mk "g" [⟨"a", "t", "s", 0⟩]).Accounts, b = ⟨"a", "t", "s", 0⟩)
  ∧ OptAccName "a" ⟨"g", [⟨"a", "t", "s", 0⟩]⟩ "a" = .error .AccountExists :=
  ⟨rfl, by decide, rfl⟩

/-- C5 amended: `OptAccName` fails with `ErrAccountExists` iff the new name
already names ANY account of the group — the target itself included, so a
rename to the target's current name is rejected too; otherwise it looks up
the target by the query's account name, failing with `ErrNoSuchAccount`
when absent, and renames the first account carrying that name. -/
theorem OptAccName_spec (g : Group) (acc name : String) :
    ((∃ b ∈ g.Accounts, b.Name = name) →
        OptAccName name g acc = .error .AccountExists)
  ∧ ((¬ ∃ b ∈ g.Accounts, b.Name = name) → (¬ ∃ b ∈ g.Accounts, b.Name = acc) →
        OptAccName name g acc = .error .NoSuchAccount)
  ∧ (∀ l₁ a l₂, (¬ ∃ b ∈ g.Accounts, b.Name = name) →
        g.Accounts = l₁ ++ a :: l₂ → a.Name = acc → (∀ b ∈ l₁, b.Name ≠ acc) →
        OptAccName name g acc
          = .ok { g with Accounts := l₁ ++ a.updateFieldName name :: l₂ }) := by
  refine ⟨?_, ?_, ?_⟩
  · intro h
    have hb : g.existsName name = true := (existsName_eq_true_iff g name).mpr h
    simp [OptAccName, hb]
  · intro hname hacc
    have hb : g.existsName name = false := existsName_eq_false g name hname
    have hu : updateFirstList (fun a => a.updateFieldName name) g.Accounts acc = none :=
      (updateFirstList_none_iff _ g.Accounts acc).mpr (by
        intro b hbmem hbn
        exact hacc ⟨b, hbmem, hbn⟩)
    simp [OptAccName, hb, hu]
  · intro l₁ a l₂ hname hdec ha hl₁
    have hb : g.existsName name = false := existsName_eq_false g name hname
    have hu := updateFirstList_decomp (fun a => a.updateFieldName name) l₁ a l₂ acc ha hl₁
    rw [← hdec] at hu
    simp [OptAccName, hb, hu]

/-- Witness for C5 at a concrete input: renaming "a" to the fresh name "b"
in a one-account group. -/
theorem OptAccName_spec_witness :
    OptAccName "b" ⟨"g", [⟨"a", "t", "s", 0⟩]⟩ "a"
      = .ok ⟨"g", [⟨"b", "t", "s", 0⟩]⟩ :=
  (OptAccName_spec ⟨"g", [⟨"a", "t", "s", 0⟩]⟩ "a" "b").2.2 [] ⟨"a", "t", "s", 0⟩ []
    (by decide) rfl rfl (by simp)

/-! The vault orchestrator. -/

/-- C4 amended: `IsSetUp` fails with `ErrNotSetup` iff the default group's
metadata does not exist OR its vault blob does not exist (a non-nil error
from the store's existence checks signalling existence); it reports success
iff both exist. -/
theorem IsSetUp_spec (fs : FS) :
    (IsSetUp fs = .error .NotSetup ↔
      (fs.GroupExists "default" = none ∨ fs.VaultExists "default" = none))
  ∧ (IsSetUp fs = .ok () ↔
      (fs.GroupExists "default" ≠ none ∧ fs.VaultExists "default" ≠ none)) := by
  unfold IsSetUp
  rcases hg : fs.GroupExists "default" with _ | eg <;>
    rcases hv : fs.VaultExists "default" with _ | ev <;> simp

/-- Witness for C4 at a concrete input: with both existence checks
reporting existence (non-nil), `IsSetUp` succeeds. -/
theorem IsSetUp_spec_witness :
    IsSetUp ⟨fun _ => some (.other "group exists"),
             fun _ => some (.other "vault exists"), fun _ => none⟩ = .ok () :=
  (IsSetUp_spec ⟨fun _ => some (.other "group exists"),
                 fun _ => some (.other "vault exists"), fun _ => none⟩).2.mpr
    (by simp)

/-- C4 counterexample: a store where the default group's metadata exists
(the existence check returns a non-nil error) while its vault blob does not
(nil): "neither the metadata nor the vault exists" is false, so the claim
predicts success, yet `IsSetUp` returns `ErrNotSetup`. -/
theorem IsSetUp_metadata_without_vault_counterexample :
    FS.GroupExists ⟨fun _ => some (.other "group exists"), fun _ => none, fun _ => none⟩
        "default" ≠ none
  ∧ FS.VaultExists ⟨fun _ => some (.other "group exists"), fun _ => none, fun _ => none⟩
        "default" = none
  ∧ IsSetUp ⟨fun _ => some (.other "group exists"), fun _ => none, fun _ => none⟩
        = .error .NotSetup :=
  ⟨by simp, rfl, rfl⟩

/-- A concrete external collaborator for the closed witnesses: decryption
always fails (as with a wrong group key), encryption and marshalling
succeed. -/
def extFailingCodec : External where
  DecryptVault := fun _ _ => .error (.other "cipher: message authentication failed")
  EncryptVault := fun b _ => .ok b
  Marshal := fun _ => .ok []

/-- A concrete store for the closed witnesses, holding one vault blob for
the group "g". -/
def fsOneGroup : FS where
  GroupExists := fun _ => some (.other "exists")
  VaultExists := fun _ => some (.other "exists")
  blobs := fun gid => if gid = "g" then some [0] else none

/-- C1: when the mutation applied by `UpdateState` fails — or already query
resolution or load/decrypt fails — `UpdateState` performs no write: the
returned store is exactly the pre-call store, so in particular the
persisted blob of the addressed group (and of every other) is
byte-identical to its pre-call value, and the error is returned. -/
theorem UpdateState_no_write_on_failure (ext : External) (fs : FS)
    (query groupKey : String) (opt : StateOption) (e : Err) :
    (SplitQuery query = .error e →
        UpdateState ext fs query groupKey opt = (.error e, fs))
  ∧ (∀ gid name, SplitQuery query = .ok (gid, name) →
        LoadGroup ext fs gid groupKey = .error e →
        UpdateState ext fs query groupKey opt = (.error e, fs))
  ∧ (∀ gid name group, SplitQuery query = .ok (gid, name) →
        LoadGroup ext fs gid groupKey = .ok group →
        opt group name = .error e →
        UpdateState ext fs query groupKey opt = (.error e, fs)) := by
  refine ⟨?_, ?_, ?_⟩
  · intro h
    unfold UpdateState
    rw [h]
  · intro gid name hq hl
    unfold UpdateState
    simp only [hq, hl]
  · intro gid name group hq hl hopt
    unfold UpdateState
    simp only [hq, hl, hopt]

/-- Witness for C1 at a concrete input: a query without separator fails in
resolution and the store comes back untouched. -/
theorem UpdateState_no_write_on_failure_witness :
    UpdateState extFailingCodec fsOneGroup "detective" "k" OptAccDelete
      = (.error .InvalidQuery, fsOneGroup) :=
  (UpdateState_no_write_on_failure extFailingCodec fsOneGroup "detective" "k"
    OptAccDelete .InvalidQuery).1 rfl

/-- C6: a decryption failure of the vault codec, whatever its underlying
cause `e`, is collapsed to exactly `ErrWrongKey`: `LoadGroup` — and with it
`GetAccount` and `UpdateState` — and `CheckGroupKey` all return
`ErrWrongKey`, and since this holds for every `e`, the underlying causes
are never distinguishable from the returned error. -/
theorem decrypt_failure_collapses_to_WrongKey (ext : External) (fs : FS)
    (query gid name groupKey : String) (bytes : Bytes) (e : Err)
    (hq : SplitQuery query = .ok (gid, name))
    (hb : fs.blobs gid = some bytes)
    (hd : ext.DecryptVault bytes groupKey = .error e) :
    LoadGroup ext fs gid groupKey = .error .WrongKey
  ∧ GetAccount ext fs query groupKey = .error .WrongKey
  ∧ CheckGroupKey ext fs query groupKey = .error .WrongKey
  ∧ ∀ opt : StateOption,
      UpdateState ext fs query groupKey opt = (.error .WrongKey, fs) := by
  have hread : fs.ReadGroupVault gid = .ok bytes := by
    unfold FS.ReadGroupVault
    rw [hb]
  have hload : LoadGroup ext fs gid groupKey = .error .WrongKey := by
    unfold LoadGroup
    simp only [hread, hd]
  refine ⟨hload, ?_, ?_, ?_⟩
  · unfold GetAccount
    simp only [hq, hload]
  · unfold CheckGroupKey
    simp only [hq, hread, hd]
  · intro opt
    unfold UpdateState
    simp only [hq, hload]

/-- Witness for C6 at a concrete input. -/
theorem decrypt_failure_collapses_to_WrongKey_witness :
    CheckGroupKey extFailingCodec fsOneGroup "g@a" "wrong" = .error .WrongKey :=
  (decrypt_failure_collapses_to_WrongKey extFailingCodec fsOneGroup "g@a" "g" "a"
    "wrong" [0] (.other "cipher: message authentication failed") rfl rfl rfl).2.2.1

/-- C10: `OptAddAccount` never consults the account-name half of the query:
the mutation is `Group.append` of its captured account for every target
name, and `UpdateState` behaves identically on any two queries `g@x₁` and
`g@x₂` sharing the group half — the account is appended on the strength of
its own (name, tag) alone. -/
theorem OptAddAccount_ignores_query_name (ext : External) (fs : FS)
    (g x₁ x₂ groupKey : String) (account : Account)
    (hg : g.data.count '@' = 0) (h₁ : x₁.data.count '@' = 0)
    (h₂ : x₂.data.count '@' = 0) :
    (∀ (gr : Group) (acc : String), OptAddAccount account gr acc = gr.append account)
  ∧ UpdateState ext fs (g ++ "@" ++ x₁) groupKey (OptAddAccount account)
      = UpdateState ext fs (g ++ "@" ++ x₂) groupKey (OptAddAccount account) := by
  refine ⟨fun gr acc => rfl, ?_⟩
  have hs₁ : SplitQuery (g ++ "@" ++ x₁) = .ok (g, x₁) :=
    (SplitQuery_ok_iff _ g x₁).mpr ⟨by simp [String.data_append], hg, h₁⟩
  have hs₂ : SplitQuery (g ++ "@" ++ x₂) = .ok (g, x₂) :=
    (SplitQuery_ok_iff _ g x₂).mpr ⟨by simp [String.data_append], hg, h₂⟩
  unfold UpdateState
  simp only [hs₁, hs₂]
  rcases hl : LoadGroup ext fs g groupKey with e | group <;>
    simp only [hl, OptAddAccount]

/-- Witness for C10 at concrete inputs. -/
theorem OptAddAccount_ignores_query_name_witness :
    UpdateState extFailingCodec fsOneGroup ("g" ++ "@" ++ "a") "k"
        (OptAddAccount ⟨"n", "t", "s", 0⟩)
      = UpdateState extFailingCodec fsOneGroup ("g" ++ "@" ++ "b") "k"
        (OptAddAccount ⟨"n", "t", "s", 0⟩) :=
  (OptAddAccount_ignores_query_name extFailingCodec fsOneGroup "g" "a" "b" "k"
    ⟨"n", "t", "s", 0⟩ (by decide) (by decide) (by decide)).2

end Sherlock
